import Mathlib

/-!
Verification development for the reorc-mcp CLI client.

The definitions below are a shallow embedding of the Python source:
  - src/utils/file_operations.py   (download_dbt_project, download_semantic_project)
  - src/utils/project_operations.py (handle_project_operations: list-sources,
    refresh-sources polling, download-semantic-project branches)
  - src/utils/git_operations.py    (GitOperations.get_status, run_git_command)
  - src/utils/common/cli_utils.py  (run_curl_command, http_get)

Filesystem state is modelled as an association list from relative file paths
to file contents; writing a file is an update-or-insert on that map.
JSON values parsed by the Python json module are modelled by the inductive
type JVal.  HTTP and subprocess outcomes are inputs to the embedded
functions (the embedding is parametric in what the external world returns).
-/

/-- JSON values as produced by Python's json.loads. -/
inductive JVal where
  | null
  | bool (b : Bool)
  | num (n : Int)
  | str (s : String)
  | arr (xs : List JVal)
  | obj (kvs : List (String × JVal))

/-- Python dict .get(key): first binding for the key, if any. -/
def jget (v : JVal) (key : String) : Option JVal :=
  match v with
  | .obj kvs => (kvs.find? (fun kv => kv.1 = key)).map (fun kv => kv.2)
  | _ => none

/-- A filesystem region: relative path to file content. -/
abbrev FileMap := List (String × String)

/-- Content of the file at path p, if present (first binding wins). -/
def lookupFile (fs : FileMap) (p : String) : Option String :=
  (fs.find? (fun e => e.1 = p)).map (fun e => e.2)

/-- Write content c at path p, overwriting any existing file there
(models shutil.copy2 / open(..., "w") at the map level). -/
def setFile (fs : FileMap) (p c : String) : FileMap :=
  (p, c) :: fs.filter (fun e => e.1 ≠ p)

/-- Copy every archive entry into fs, in order (models the os.walk copy loop:
later entries overwrite earlier ones at the same path). -/
def mergeFiles (fs : FileMap) (archive : FileMap) : FileMap :=
  archive.foldl (fun acc e => setFile acc e.1 e.2) fs

/-- The content an archive assigns to path p (last entry at p wins), if any. -/
def archLookup : FileMap → String → Option String
  | [], _ => none
  | e :: A, p =>
    match archLookup A p with
    | some c => some c
    | none => if e.1 = p then some e.2 else none

theorem find_filter_ne (fs : FileMap) (p q : String) (h : ¬ q = p) :
    List.find? (fun e => e.1 = q) (fs.filter (fun e => e.1 ≠ p)) =
      List.find? (fun e => e.1 = q) fs := by
  induction fs with
  | nil => rfl
  | cons e fs ih =>
    by_cases heq : e.1 = q
    · have hep : e.1 ≠ p := by rw [heq]; exact h
      rw [List.filter_cons, if_pos (by simp only [decide_eq_true_eq]; exact hep)]
      rw [List.find?_cons_of_pos _ (by simp only [decide_eq_true_eq]; exact heq)]
      rw [List.find?_cons_of_pos _ (by simp only [decide_eq_true_eq]; exact heq)]
    · by_cases hep : e.1 = p
      · rw [List.filter_cons, if_neg (by simp only [decide_eq_true_eq]; exact fun hh => hh hep)]
        rw [List.find?_cons_of_neg _ (by simp only [decide_eq_true_eq]; exact heq)]
        exact ih
      · rw [List.filter_cons, if_pos (by simp only [decide_eq_true_eq]; exact hep)]
        rw [List.find?_cons_of_neg _ (by simp only [decide_eq_true_eq]; exact heq)]
        rw [List.find?_cons_of_neg _ (by simp only [decide_eq_true_eq]; exact heq)]
        exact ih

theorem lookupFile_setFile (fs : FileMap) (p c q : String) :
    lookupFile (setFile fs p c) q = if q = p then some c else lookupFile fs q := by
  unfold setFile lookupFile
  by_cases h : q = p
  · subst h
    simp [List.find?_cons]
  · rw [if_neg h]
    have hne : ¬ (p = q) := fun hh => h hh.symm
    simp only [List.find?_cons, hne, decide_False]
    rw [find_filter_ne fs p q h]

theorem lookupFile_mergeFiles (A : FileMap) (fs : FileMap) (p : String) :
    lookupFile (mergeFiles fs A) p =
      match archLookup A p with
      | some c => some c
      | none => lookupFile fs p := by
  induction A generalizing fs with
  | nil => simp [mergeFiles, archLookup]
  | cons e A ih =>
    show lookupFile (mergeFiles (setFile fs e.1 e.2) A) p = _
    rw [ih]
    cases h : archLookup A p with
    | some c => simp [archLookup, h]
    | none =>
      simp only [archLookup, h]
      rw [lookupFile_setFile]
      by_cases hp : p = e.1
      · subst hp; simp
      · have : ¬ (e.1 = p) := fun hh => hp hh.symm
        simp [hp, this]

theorem archLookup_eq_none_of_not_mem (A : FileMap) (p : String)
    (h : p ∉ A.map Prod.fst) : archLookup A p = none := by
  induction A with
  | nil => rfl
  | cons e A ih =>
    simp only [List.map, List.mem_cons, not_or] at h
    obtain ⟨h1, h2⟩ := h
    simp only [archLookup, ih h2]
    have : ¬ (e.1 = p) := fun hh => h1 hh.symm
    simp [this]

/-! ## Archive sync engine: FileOperations.download_dbt_project

Embedding of src/utils/file_operations.py lines 242-360.  The HTTP stream,
the temp-dir extraction and the copy loop are modelled at the level of the
project directory's file map: the tarball is a list of (relative path,
content) entries in walk order; `mergeFiles` is the copy loop (overwrite or
create, never delete).  The requests.RequestException branch (a transport
fault while streaming) is not modelled: no claim exercises it. -/

/-- True for the .git directory and anything inside it (os.walk skips these). -/
def underGit (p : String) : Bool := p = ".git" || String.isPrefixOf ".git/" p

/-- Proper directory prefixes of a relative file path ("a/b/c.sql" yields "a", "a/b"). -/
def dirPrefixes (p : String) : List String :=
  let parts := p.splitOn "/"
  (List.range (parts.length - 1)).map (fun i => String.intercalate "/" (parts.take (i + 1)))

/-- count_files_and_dirs_recursively, file component: every file not under .git. -/
def countFilesExcludingGit (fs : FileMap) : Nat :=
  (((fs.map Prod.fst).eraseDups).filter (fun p => !underGit p)).length

/-- count_files_and_dirs_recursively, directory component: directories implied
by the stored paths, .git excluded. -/
def countDirsExcludingGit (fs : FileMap) : Nat :=
  ((((fs.map Prod.fst).flatMap dirPrefixes)).eraseDups.filter (fun d => !underGit d)).length

/-- Inputs of one download_dbt_project run: the local state before the call and
what the external world (HTTP server, tar extraction) returns during it. -/
structure DbtDownloadInput where
  projectExists : Bool
  projectFiles : FileMap
  httpStatus : Nat
  archive : FileMap
  tarOk : Bool
  tarErrMsg : String

/-- The success payload of download_dbt_project. -/
structure DbtSummary where
  files_updated : Nat
  file_count : Nat
  directory_count : Nat
  local_only_files_count : Nat

/-- Structured result: success summary or the error dict's message. -/
inductive DbtResult where
  | ok (s : DbtSummary)
  | err (msg : String)

/-- State of local-model-projects/{code} after the call: the project file map
and whether {code}.tar.gz is present in the base directory. -/
structure DbtState where
  projectExists : Bool
  files : FileMap
  archivePresent : Bool

/-- files_updated of a successful result. -/
def filesUpdatedOf : DbtResult → Option Nat
  | .ok s => some s.files_updated
  | .err _ => none

/-- FileOperations.download_dbt_project (file_operations.py:242-360).
Steps in source order: remove stale archive; snapshot existing relative paths
(when the project directory exists); stream the download (non-200 is a fatal
error, archive file not written); create the project directory; extract to a
temp dir (TarError is an error return, the archive file stays on disk); copy
every extracted file over the project directory counting files_updated;
compute local_only = existing - downloaded; delete the archive; count files
and directories recursively. -/
def download_dbt_project (inp : DbtDownloadInput) : DbtResult × DbtState :=
  let existing := if inp.projectExists then (inp.projectFiles.map Prod.fst).eraseDups else []
  if inp.httpStatus ≠ 200 then
    (.err ("Failed to download project: HTTP " ++ toString inp.httpStatus),
     ⟨inp.projectExists, inp.projectFiles, false⟩)
  else if inp.tarOk = false then
    (.err ("Failed to extract archive: " ++ inp.tarErrMsg),
     ⟨true, inp.projectFiles, true⟩)
  else
    let newFiles := mergeFiles inp.projectFiles inp.archive
    let downloaded := inp.archive.map Prod.fst
    let localOnly := existing.filter (fun p => !downloaded.contains p)
    (.ok ⟨inp.archive.length, countFilesExcludingGit newFiles,
          countDirsExcludingGit newFiles, localOnly.length⟩,
     ⟨true, newFiles, false⟩)

/-- C1: for a project whose workspace directory exists before the call, a
successful downloadAndMergeProject run leaves every local file whose relative
path is not in the downloaded archive present with unchanged content, and
never deletes any pre-existing local path. -/
theorem C1_merge_preserves_local_only_files
    (inp : DbtDownloadInput) (p : String)
    (hex : inp.projectExists = true)
    (h200 : inp.httpStatus = 200)
    (htar : inp.tarOk = true)
    (hnot : p ∉ inp.archive.map Prod.fst) :
    lookupFile (download_dbt_project inp).2.files p = lookupFile inp.projectFiles p ∧
    (∀ q, lookupFile inp.projectFiles q ≠ none →
      lookupFile (download_dbt_project inp).2.files q ≠ none) := by
  have harch : archLookup inp.archive p = none := archLookup_eq_none_of_not_mem _ _ hnot
  unfold download_dbt_project
  simp only [h200, htar, ne_eq, not_true_eq_false, if_false, Bool.true_eq_false, ite_false]
  constructor
  · rw [lookupFile_mergeFiles, harch]
  · intro q hq
    rw [lookupFile_mergeFiles]
    cases harchq : archLookup inp.archive q with
    | some c => simp
    | none => simpa using hq

/-- C1 witness: concrete successful run over a project with a local-only file. -/
theorem C1_merge_preserves_local_only_files_witness :
    lookupFile (download_dbt_project
        ⟨true, [("models/a.sql", "select 1"), ("notes.md", "keep me")],
         200, [("models/a.sql", "select 2")], true, ""⟩).2.files "notes.md" =
      lookupFile [("models/a.sql", "select 1"), ("notes.md", "keep me")] "notes.md" ∧
    (∀ q, lookupFile [("models/a.sql", "select 1"), ("notes.md", "keep me")] q ≠ none →
      lookupFile (download_dbt_project
        ⟨true, [("models/a.sql", "select 1"), ("notes.md", "keep me")],
         200, [("models/a.sql", "select 2")], true, ""⟩).2.files q ≠ none) :=
  C1_merge_preserves_local_only_files
    ⟨true, [("models/a.sql", "select 1"), ("notes.md", "keep me")],
     200, [("models/a.sql", "select 2")], true, ""⟩
    "notes.md" rfl rfl rfl (by decide)

/-- C2: with a fixed archive, running downloadAndMergeProject twice is
idempotent in file content (no path's content differs after the second call)
and both calls report the same files_updated, namely the number of files in
the archive. -/
theorem C2_download_idempotent
    (inp : DbtDownloadInput)
    (h200 : inp.httpStatus = 200)
    (htar : inp.tarOk = true) :
    (∀ p, lookupFile (download_dbt_project
        ⟨true, (download_dbt_project inp).2.files, inp.httpStatus, inp.archive,
         inp.tarOk, inp.tarErrMsg⟩).2.files p =
      lookupFile (download_dbt_project inp).2.files p) ∧
    filesUpdatedOf (download_dbt_project
        ⟨true, (download_dbt_project inp).2.files, inp.httpStatus, inp.archive,
         inp.tarOk, inp.tarErrMsg⟩).1 = filesUpdatedOf (download_dbt_project inp).1 ∧
    filesUpdatedOf (download_dbt_project inp).1 = some inp.archive.length := by
  unfold download_dbt_project
  simp only [h200, htar, ne_eq, not_true_eq_false, if_false, Bool.true_eq_false, ite_false]
  refine ⟨?_, rfl, rfl⟩
  intro p
  rw [lookupFile_mergeFiles, lookupFile_mergeFiles]
  cases h : archLookup inp.archive p <;> simp [h]

/-- C2 witness: concrete double run. -/
theorem C2_download_idempotent_witness :
    (∀ p, lookupFile (download_dbt_project
        ⟨true, (download_dbt_project
            ⟨true, [("keep.md", "x")], 200, [("m.sql", "select 1")], true, ""⟩).2.files,
         200, [("m.sql", "select 1")], true, ""⟩).2.files p =
      lookupFile (download_dbt_project
        ⟨true, [("keep.md", "x")], 200, [("m.sql", "select 1")], true, ""⟩).2.files p) ∧
    filesUpdatedOf (download_dbt_project
        ⟨true, (download_dbt_project
            ⟨true, [("keep.md", "x")], 200, [("m.sql", "select 1")], true, ""⟩).2.files,
         200, [("m.sql", "select 1")], true, ""⟩).1 =
      filesUpdatedOf (download_dbt_project
        ⟨true, [("keep.md", "x")], 200, [("m.sql", "select 1")], true, ""⟩).1 ∧
    filesUpdatedOf (download_dbt_project
        ⟨true, [("keep.md", "x")], 200, [("m.sql", "select 1")], true, ""⟩).1 =
      some [("m.sql", "select 1")].length :=
  C2_download_idempotent
    ⟨true, [("keep.md", "x")], 200, [("m.sql", "select 1")], true, ""⟩ rfl rfl

/-- C9: when the download succeeds but extraction fails with an archive error,
download_dbt_project returns the structured extraction-failure error and the
downloaded archive file is still present on disk (it is deleted only on the
success path). -/
theorem C9_extraction_failure_leaves_archive
    (inp : DbtDownloadInput)
    (h200 : inp.httpStatus = 200)
    (htar : inp.tarOk = false) :
    (download_dbt_project inp).1 = .err ("Failed to extract archive: " ++ inp.tarErrMsg) ∧
    (download_dbt_project inp).2.archivePresent = true := by
  unfold download_dbt_project
  simp [h200, htar]

/-- C9 witness: concrete corrupt-archive run. -/
theorem C9_extraction_failure_leaves_archive_witness :
    (download_dbt_project
        ⟨true, [("keep.md", "x")], 200, [], false, "truncated gzip"⟩).1 =
      .err ("Failed to extract archive: " ++ "truncated gzip") ∧
    (download_dbt_project
        ⟨true, [("keep.md", "x")], 200, [], false, "truncated gzip"⟩).2.archivePresent = true :=
  C9_extraction_failure_leaves_archive
    ⟨true, [("keep.md", "x")], 200, [], false, "truncated gzip"⟩ rfl rfl

/-! ## Semantic project sync: the download-semantic-project branch

Embedding of src/utils/project_operations.py lines 279-346 together with
FileOperations.download_semantic_project (file_operations.py:362-423).
State is the file map under local-semantic-projects (paths relative to that
root; archive entries likewise, so a project's files live under the
"{code}/" prefix) plus presence of the {code}_semantic.tar.gz archive file. -/

/-- Whether relative path p lies inside the extracted directory of a project
code (shutil.rmtree removes local-semantic-projects/{code}). -/
def underCode (code p : String) : Bool := String.isPrefixOf (code ++ "/") p

/-- Inputs of one download-semantic-project command run. -/
structure SemanticSyncInput where
  code : String
  rootFiles : FileMap
  downloadOk : Bool
  archive : FileMap
  tarOk : Bool
  tarErrMsg : String

/-- Result of the command: success or the error dict's message. -/
inductive SemResult where
  | ok
  | err (msg : String)

/-- State of local-semantic-projects after the call. -/
structure SemState where
  files : FileMap
  archivePresent : Bool

/-- The download-semantic-project branch of handle_project_operations
(project_operations.py:279-346): download the archive (download failure is
fatal to the operation, no extraction happens); rmtree the pre-existing
local-semantic-projects/{code} directory; extract the fresh archive over the
semantic root (TarError leaves the archive file in place); delete the
archive file on success. -/
def syncSemanticProject (inp : SemanticSyncInput) : SemResult × SemState :=
  if inp.downloadOk = false then
    (.err "download failed", ⟨inp.rootFiles, false⟩)
  else
    let afterClean := inp.rootFiles.filter (fun e => !underCode inp.code e.1)
    if inp.tarOk = false then
      (.err ("Error extracting tar.gz file: " ++ inp.tarErrMsg), ⟨afterClean, true⟩)
    else
      (.ok, ⟨mergeFiles afterClean inp.archive, false⟩)

theorem lookupFile_filter_underCode (fs : FileMap) (code p : String)
    (h : underCode code p = true) :
    lookupFile (fs.filter (fun e => !underCode code e.1)) p = none := by
  induction fs with
  | nil => rfl
  | cons e fs ih =>
    rw [List.filter_cons]
    by_cases hc : underCode code e.1
    · rw [if_neg (by simp [hc])]
      exact ih
    · rw [if_pos (by simp [hc])]
      unfold lookupFile
      have hne : ¬ (e.1 = p) := by
        intro hh
        rw [hh] at hc
        exact hc h
      rw [List.find?_cons_of_neg _ (by simp only [decide_eq_true_eq]; exact hne)]
      exact ih

/-- C3: a successful download-semantic-project run ends with the semantic
workspace directory for the project code holding exactly the archive's
contents under that code (every pre-existing local-only file below the code
directory is gone, every archive file is in place with the archive's
content), and the archive file is deleted afterward. -/
theorem C3_semantic_full_replace
    (inp : SemanticSyncInput)
    (hdl : inp.downloadOk = true)
    (htar : inp.tarOk = true) :
    (syncSemanticProject inp).1 = SemResult.ok ∧
    (syncSemanticProject inp).2.archivePresent = false ∧
    (∀ p, underCode inp.code p = true →
      lookupFile (syncSemanticProject inp).2.files p = archLookup inp.archive p) := by
  unfold syncSemanticProject
  simp only [hdl, htar, Bool.true_eq_false, ite_false]
  refine ⟨trivial, trivial, ?_⟩
  intro p hp
  rw [lookupFile_mergeFiles]
  cases h : archLookup inp.archive p with
  | some c => rfl
  | none => exact lookupFile_filter_underCode _ _ _ hp

/-- C3 witness: a concrete run where a local-only file under the code
directory is replaced by the archive's contents. -/
theorem C3_semantic_full_replace_witness :
    (syncSemanticProject
        ⟨"demo1", [("demo1/old.yaml", "stale"), ("other/x.yaml", "keep")],
         true, [("demo1/model.yaml", "fresh")], true, ""⟩).1 = SemResult.ok ∧
    (syncSemanticProject
        ⟨"demo1", [("demo1/old.yaml", "stale"), ("other/x.yaml", "keep")],
         true, [("demo1/model.yaml", "fresh")], true, ""⟩).2.archivePresent = false ∧
    (∀ p, underCode "demo1" p = true →
      lookupFile (syncSemanticProject
          ⟨"demo1", [("demo1/old.yaml", "stale"), ("other/x.yaml", "keep")],
           true, [("demo1/model.yaml", "fresh")], true, ""⟩).2.files p =
        archLookup [("demo1/model.yaml", "fresh")] p) :=
  C3_semantic_full_replace
    ⟨"demo1", [("demo1/old.yaml", "stale"), ("other/x.yaml", "keep")],
     true, [("demo1/model.yaml", "fresh")], true, ""⟩ rfl rfl

/-! ## Source catalog cache: the list-sources branch

Embedding of src/utils/project_operations.py lines 20-127.  The live fetch
of step 1 happens unconditionally before the freshness check; the cache
state is the parsed content and mtime of {code}_raw_sources.json (modelled
as a parsed JSON value, mirroring the spec's "its parsed content").
Python's `file_mtime > time.time() - 86400` is `now < mtime + 86400` over
non-negative clocks.  Outputs record the returned value, whether the cache
directory was wiped, what was dumped into the JSON cache file, and which
per-database YAML descriptor files were written. -/

/-- Python str() of a JSON value as interpolated into a filename
(only the string and None cases are exercised by well-formed catalogs). -/
def pyShow : JVal → String
  | .null => "None"
  | .bool true => "True"
  | .bool false => "False"
  | .num n => toString n
  | .str s => s
  | .arr _ => "<list>"
  | .obj _ => "<dict>"

/-- Descriptor filename for one database entry (project_operations.py:80-88):
database_name.yaml, or database_name_schema_name.yaml when a schema name is
present (missing key and null both count as absent, like Python None). -/
def yamlName (db : JVal) : String :=
  let dbName := pyShow ((jget db "database_name").getD JVal.null)
  match jget db "schema_name" with
  | none => dbName ++ ".yaml"
  | some JVal.null => dbName ++ ".yaml"
  | some v => dbName ++ "_" ++ pyShow v ++ ".yaml"

/-- Inputs of one list-sources run: the live server response, the cache file
(parse result and mtime) if present, and the current clock. -/
structure ListSourcesIn where
  response : JVal
  cacheFile : Option (Nat × JVal)
  now : Nat

/-- Observable effects of one list-sources run. -/
structure ListSourcesOut where
  result : Option JVal
  wiped : Bool
  cacheWritten : Option JVal
  yamlWritten : List String

/-- The cache-validity predicate: file exists, mtime within the last 86400
seconds, parsed content a non-empty list. -/
def cacheFresh (inp : ListSourcesIn) : Bool :=
  match inp.cacheFile with
  | none => false
  | some (mtime, cached) =>
    decide (inp.now < mtime + 86400) &&
    (match cached with
     | .arr dbs => !dbs.isEmpty
     | _ => false)

/-- What list-sources does after the cache-hit short-circuit fails to apply:
the response is dumped into the JSON cache, then the shape check runs
(project_operations.py:63-74): a list yields one YAML descriptor per entry
and the response is returned, anything else aborts with None and no
descriptor writes. -/
def listSourcesMiss (response : JVal) : ListSourcesOut :=
  match response with
  | .arr dbs => ⟨some response, true, some response, dbs.map yamlName⟩
  | _ => ⟨none, true, some response, []⟩

/-- The list-sources branch of handle_project_operations
(project_operations.py:20-127): check the cache file; a fresh cache whose
parsed content is a non-empty list is returned immediately (no wipe, no
writes); otherwise every file in the cache directory is deleted and the
fresh response is written as the new JSON cache before the shape check. -/
def listSources (inp : ListSourcesIn) : ListSourcesOut :=
  match inp.cacheFile with
  | some (mtime, cached) =>
    if inp.now < mtime + 86400 then
      match cached with
      | .arr dbs =>
        if !dbs.isEmpty then ⟨some cached, false, none, []⟩
        else listSourcesMiss inp.response
      | _ => listSourcesMiss inp.response
    else listSourcesMiss inp.response
  | none => listSourcesMiss inp.response

theorem listSources_eq_miss (inp : ListSourcesIn) (h : cacheFresh inp = false) :
    listSources inp = listSourcesMiss inp.response := by
  obtain ⟨response, cacheFile, now⟩ := inp
  cases cacheFile with
  | none => rfl
  | some mc =>
    obtain ⟨mtime, cached⟩ := mc
    simp only [cacheFresh] at h
    simp only [listSources]
    by_cases hfr : now < mtime + 86400
    · rw [if_pos hfr]
      simp only [hfr, decide_True, Bool.true_and] at h
      cases cached with
      | arr dbs =>
        dsimp only at h ⊢
        rw [h]
        simp
      | null => rfl
      | bool b => rfl
      | num n => rfl
      | str s => rfl
      | obj kvs => rfl
    · rw [if_neg hfr]

theorem listSources_eq_hit (inp : ListSourcesIn) (h : cacheFresh inp = true) :
    ∃ m c, inp.cacheFile = some (m, c) ∧
      listSources inp = ⟨some c, false, none, []⟩ := by
  obtain ⟨response, cacheFile, now⟩ := inp
  cases cacheFile with
  | none => simp [cacheFresh] at h
  | some mc =>
    obtain ⟨mtime, cached⟩ := mc
    simp only [cacheFresh] at h
    refine ⟨mtime, cached, rfl, ?_⟩
    simp only [listSources]
    cases cached with
    | arr dbs =>
      simp only [Bool.and_eq_true, decide_eq_true_eq] at h
      rw [if_pos h.1]
      dsimp only
      rw [if_pos h.2]
    | null => simp at h
    | bool b => simp at h
    | num n => simp at h
    | str s => simp at h
    | obj kvs => simp at h

/-- C4: listSources returns the cached catalog via the short-circuit path
(no cache wipe, no cache rewrite, no descriptor writes) exactly when the
cache file exists, is younger than 86400 seconds, and parses to a non-empty
list; in every other case the cache directory is wiped and the fresh
response is written as the new JSON cache. -/
theorem C4_cache_validity_predicate (inp : ListSourcesIn) :
    (((listSources inp).wiped = false ∧ (listSources inp).cacheWritten = none ∧
        (listSources inp).yamlWritten = []) ↔ cacheFresh inp = true) ∧
    (cacheFresh inp = true →
      ∃ m c, inp.cacheFile = some (m, c) ∧ (listSources inp).result = some c) ∧
    (cacheFresh inp = false →
      (listSources inp).wiped = true ∧ (listSources inp).cacheWritten = some inp.response) := by
  refine ⟨⟨?_, ?_⟩, ?_, ?_⟩
  · intro hout
    by_contra hfr
    rw [Bool.not_eq_true] at hfr
    rw [listSources_eq_miss inp hfr] at hout
    unfold listSourcesMiss at hout
    cases hresp : inp.response <;> rw [hresp] at hout <;> exact absurd hout.1 (by simp)
  · intro hfr
    obtain ⟨m, c, hcf, hout⟩ := listSources_eq_hit inp hfr
    rw [hout]
    exact ⟨rfl, rfl, rfl⟩
  · intro hfr
    obtain ⟨m, c, hcf, hout⟩ := listSources_eq_hit inp hfr
    rw [hout]
    exact ⟨m, c, hcf, rfl⟩
  · intro hfr
    rw [listSources_eq_miss inp hfr]
    unfold listSourcesMiss
    cases hresp : inp.response <;> exact ⟨rfl, rfl⟩

/-- C4 witness: a fresh non-empty cached list short-circuits; an empty cached
list is treated as malformed (wipe and rewrite). -/
theorem C4_cache_validity_predicate_witness :
    (((listSources ⟨JVal.arr [JVal.obj []], some (1000, JVal.arr [JVal.obj []]), 1500⟩).wiped = false ∧
        (listSources ⟨JVal.arr [JVal.obj []], some (1000, JVal.arr [JVal.obj []]), 1500⟩).cacheWritten = none ∧
        (listSources ⟨JVal.arr [JVal.obj []], some (1000, JVal.arr [JVal.obj []]), 1500⟩).yamlWritten = []) ↔
      cacheFresh ⟨JVal.arr [JVal.obj []], some (1000, JVal.arr [JVal.obj []]), 1500⟩ = true) ∧
    (cacheFresh ⟨JVal.arr [JVal.obj []], some (1000, JVal.arr [JVal.obj []]), 1500⟩ = true →
      ∃ m c, (some (1000, JVal.arr [JVal.obj []]) : Option (Nat × JVal)) = some (m, c) ∧
        (listSources ⟨JVal.arr [JVal.obj []], some (1000, JVal.arr [JVal.obj []]), 1500⟩).result = some c) ∧
    (cacheFresh ⟨JVal.arr [JVal.obj []], some (1000, JVal.arr [JVal.obj []]), 1500⟩ = false →
      (listSources ⟨JVal.arr [JVal.obj []], some (1000, JVal.arr [JVal.obj []]), 1500⟩).wiped = true ∧
      (listSources ⟨JVal.arr [JVal.obj []], some (1000, JVal.arr [JVal.obj []]), 1500⟩).cacheWritten =
        some (JVal.arr [JVal.obj []])) :=
  C4_cache_validity_predicate ⟨JVal.arr [JVal.obj []], some (1000, JVal.arr [JVal.obj []]), 1500⟩

/-- C5: when the short-circuit does not apply and the server response is not
a sequence, list-sources aborts: it returns no catalog and writes no
per-database descriptor file. -/
theorem C5_nonlist_response_aborts (inp : ListSourcesIn)
    (hmiss : cacheFresh inp = false)
    (hshape : ∀ dbs, inp.response ≠ JVal.arr dbs) :
    (listSources inp).result = none ∧ (listSources inp).yamlWritten = [] := by
  rw [listSources_eq_miss inp hmiss]
  unfold listSourcesMiss
  cases hresp : inp.response with
  | arr dbs => exact absurd hresp (hshape dbs)
  | null => exact ⟨rfl, rfl⟩
  | bool b => exact ⟨rfl, rfl⟩
  | num n => exact ⟨rfl, rfl⟩
  | str s => exact ⟨rfl, rfl⟩
  | obj kvs => exact ⟨rfl, rfl⟩

/-- C5 witness: an error-dict response with no usable cache aborts the run. -/
theorem C5_nonlist_response_aborts_witness :
    (listSources ⟨JVal.obj [("error", JVal.str "boom")], none, 1500⟩).result = none ∧
    (listSources ⟨JVal.obj [("error", JVal.str "boom")], none, 1500⟩).yamlWritten = [] :=
  C5_nonlist_response_aborts ⟨JVal.obj [("error", JVal.str "boom")], none, 1500⟩
    rfl (fun dbs h => JVal.noConfusion h)

/-! ## Version control adapter: GitOperations.get_status

Embedding of src/utils/git_operations.py lines 122-185 together with the
output handling of run_git_command (line 58): the stdout of each git command
is passed through Python str.strip() before use, so the whole porcelain
output loses leading and trailing whitespace before it is split into lines.
Characters are modelled as List Char so stripping and splitting are plain
list operations. -/

/-- Python str.strip() default whitespace. -/
def isPyWS (c : Char) : Bool :=
  c = ' ' || c = '\t' || c = '\n' || c = '\r' || c = '\x0b' || c = '\x0c'

/-- Python str.strip(): drop whitespace from both ends. -/
def stripChars (cs : List Char) : List Char :=
  ((cs.dropWhile isPyWS).reverse.dropWhile isPyWS).reverse

/-- Python str.split('\n') at the character-list level. -/
def splitNl : List Char → List (List Char)
  | [] => [[]]
  | c :: rest =>
    if c = '\n' then [] :: splitNl rest
    else
      match splitNl rest with
      | l :: ls => (c :: l) :: ls
      | [] => [[c]]

/-- The three categorized file lists of the porcelain parse. -/
structure StatusLists where
  modified : List String
  staged : List String
  untracked : List String

/-- The parse loop of get_status (git_operations.py:159-176): skip empty
lines; status_code = line[:2], filename = line[3:]; '??' to untracked,
codes starting 'M' to modified, codes starting 'A' to staged; every other
line is dropped. -/
def parseStatusLines : List (List Char) → StatusLists
  | [] => ⟨[], [], []⟩
  | cs :: rest =>
    let r := parseStatusLines rest
    if cs.isEmpty then r
    else if cs.take 2 = ['?', '?'] then
      { r with untracked := String.mk (cs.drop 3) :: r.untracked }
    else if cs.head? = some 'M' then
      { r with modified := String.mk (cs.drop 3) :: r.modified }
    else if cs.head? = some 'A' then
      { r with staged := String.mk (cs.drop 3) :: r.staged }
    else r

/-- Inputs of one get_status call: directory state and what the two git
subprocess invocations return (raw stdout, before stripping). -/
structure GitStatusInput where
  projectExists : Bool
  gitExists : Bool
  statusOk : Bool
  statusRaw : String
  statusErr : String
  branchOk : Bool
  branchRaw : String

/-- The success payload of get_status. -/
structure GitStatusSnapshot where
  branch : String
  modified_files : List String
  staged_files : List String
  untracked_files : List String
  has_changes : Bool

/-- Result of get_status: the error dict's message or a snapshot. -/
inductive GitStatusResult where
  | err (msg : String)
  | ok (snap : GitStatusSnapshot)

/-- GitOperations.get_status (git_operations.py:122-185): missing project
directory and missing .git are errors; a failing status command propagates
its error; otherwise the stripped porcelain output is split on newlines and
parsed, branch falls back to "unknown" when the branch query fails, and
has_changes is the disjunction of the three lists' non-emptiness. -/
def get_status (inp : GitStatusInput) : GitStatusResult :=
  if inp.projectExists = false then .err "Project directory not found"
  else if inp.gitExists = false then .err "Git repository not initialized"
  else if inp.statusOk = false then .err inp.statusErr
  else
    let branch := if inp.branchOk then String.mk (stripChars inp.branchRaw.data) else "unknown"
    let lists := parseStatusLines (splitNl (stripChars inp.statusRaw.data))
    .ok ⟨branch, lists.modified, lists.staged, lists.untracked,
      !lists.modified.isEmpty || !lists.staged.isEmpty || !lists.untracked.isEmpty⟩

theorem has_changes_iff (m s u : List String) :
    (!m.isEmpty || !s.isEmpty || !u.isEmpty) = true ↔ ¬(m = [] ∧ s = [] ∧ u = []) := by
  cases m <;> cases s <;> cases u <;> simp

theorem parseStatusLines_cons_mem (cs : List Char) (rest : List (List Char)) (x : String) :
    (x ∈ (parseStatusLines rest).untracked → x ∈ (parseStatusLines (cs :: rest)).untracked) ∧
    (x ∈ (parseStatusLines rest).modified → x ∈ (parseStatusLines (cs :: rest)).modified) ∧
    (x ∈ (parseStatusLines rest).staged → x ∈ (parseStatusLines (cs :: rest)).staged) := by
  simp only [parseStatusLines]
  split_ifs <;>
    exact ⟨fun h => by first | exact h | exact List.mem_cons_of_mem _ h,
           fun h => by first | exact h | exact List.mem_cons_of_mem _ h,
           fun h => by first | exact h | exact List.mem_cons_of_mem _ h⟩

theorem mem_untracked_of_qq (lines : List (List Char)) (cs : List Char)
    (hmem : cs ∈ lines) (hqq : cs.take 2 = ['?', '?']) :
    String.mk (cs.drop 3) ∈ (parseStatusLines lines).untracked := by
  induction lines with
  | nil => cases hmem
  | cons l rest ih =>
    rcases List.mem_cons.mp hmem with h | h
    · subst h
      have hne : cs.isEmpty = false := by
        cases cs with
        | nil => simp at hqq
        | cons a t => rfl
      simp only [parseStatusLines]
      rw [if_neg (by simp [hne]), if_pos hqq]
      exact List.mem_cons_self _ _
    · exact (parseStatusLines_cons_mem l rest _).1 (ih h)

theorem mem_modified_of_M (lines : List (List Char)) (cs : List Char)
    (hmem : cs ∈ lines) (hM : cs.head? = some 'M') :
    String.mk (cs.drop 3) ∈ (parseStatusLines lines).modified := by
  induction lines with
  | nil => cases hmem
  | cons l rest ih =>
    rcases List.mem_cons.mp hmem with h | h
    · subst h
      obtain ⟨t, rfl⟩ : ∃ t, cs = 'M' :: t := by
        cases cs with
        | nil => simp at hM
        | cons a t =>
          simp only [List.head?_cons, Option.some.injEq] at hM
          exact ⟨t, by rw [hM]⟩
      simp only [parseStatusLines]
      rw [if_neg (by simp)]
      rw [if_neg (show ¬(('M' :: t).take 2 = ['?', '?']) from fun hcon => by
        have h2 : 'M' :: t.take 1 = ['?', '?'] := hcon
        injection h2 with ha hb
        exact absurd ha (by decide))]
      rw [if_pos (show ('M' :: t).head? = some 'M' from rfl)]
      exact List.mem_cons_self _ _
    · exact (parseStatusLines_cons_mem l rest _).2.1 (ih h)

theorem mem_staged_of_A (lines : List (List Char)) (cs : List Char)
    (hmem : cs ∈ lines) (hA : cs.head? = some 'A') :
    String.mk (cs.drop 3) ∈ (parseStatusLines lines).staged := by
  induction lines with
  | nil => cases hmem
  | cons l rest ih =>
    rcases List.mem_cons.mp hmem with h | h
    · subst h
      obtain ⟨t, rfl⟩ : ∃ t, cs = 'A' :: t := by
        cases cs with
        | nil => simp at hA
        | cons a t =>
          simp only [List.head?_cons, Option.some.injEq] at hA
          exact ⟨t, by rw [hA]⟩
      simp only [parseStatusLines]
      rw [if_neg (by simp)]
      rw [if_neg (show ¬(('A' :: t).take 2 = ['?', '?']) from fun hcon => by
        have h2 : 'A' :: t.take 1 = ['?', '?'] := hcon
        injection h2 with ha hb
        exact absurd ha (by decide))]
      rw [if_neg (show ¬(('A' :: t).head? = some 'M') from fun hcon => by
        injection hcon with ha
        exact absurd ha (by decide))]
      rw [if_pos (show ('A' :: t).head? = some 'A' from rfl)]
      exact List.mem_cons_self _ _
    · exact (parseStatusLines_cons_mem l rest _).2.2 (ih h)

/-- C6: get_status categorizes porcelain lines by their two-character status
code ('??' to untracked, leading 'M' to modified, leading 'A' to staged),
falls back to branch "unknown" when the branch query fails, derives
has_changes as the non-emptiness of the three lists, reports a clean
repository as three empty lists with has_changes false, and reports a
repository with exactly one new uncommitted file with untracked_files
holding exactly that file's relative path. -/
theorem C6_status_snapshot :
    (∀ lines cs, cs ∈ lines → cs.take 2 = ['?', '?'] →
      String.mk (cs.drop 3) ∈ (parseStatusLines lines).untracked) ∧
    (∀ lines cs, cs ∈ lines → cs.head? = some 'M' →
      String.mk (cs.drop 3) ∈ (parseStatusLines lines).modified) ∧
    (∀ lines cs, cs ∈ lines → cs.head? = some 'A' →
      String.mk (cs.drop 3) ∈ (parseStatusLines lines).staged) ∧
    (∀ inp : GitStatusInput, inp.projectExists = true → inp.gitExists = true →
      inp.statusOk = true →
      ∃ snap, get_status inp = .ok snap ∧
        (snap.has_changes = true ↔
          ¬(snap.modified_files = [] ∧ snap.staged_files = [] ∧
            snap.untracked_files = [])) ∧
        (inp.branchOk = false → snap.branch = "unknown")) ∧
    get_status ⟨true, true, true, "", "", true, "main"⟩ =
      .ok ⟨"main", [], [], [], false⟩ ∧
    get_status ⟨true, true, true, "?? model_a.sql\n", "", true, "main"⟩ =
      .ok ⟨"main", [], [], ["model_a.sql"], true⟩ := by
  refine ⟨mem_untracked_of_qq, mem_modified_of_M, mem_staged_of_A, ?_, rfl, rfl⟩
  intro inp h1 h2 h3
  unfold get_status
  rw [if_neg (by simp [h1]), if_neg (by simp [h2]), if_neg (by simp [h3])]
  refine ⟨_, rfl, has_changes_iff _ _ _, ?_⟩
  intro hb
  simp [hb]

/-- C6 witness: the categorization conjuncts applied at one concrete line
each, and the success-path conjunct at a concrete input. -/
theorem C6_status_snapshot_witness :
    String.mk (['?', '?', ' ', 'a'].drop 3) ∈
      (parseStatusLines [['?', '?', ' ', 'a']]).untracked ∧
    String.mk (['M', ' ', ' ', 'b'].drop 3) ∈
      (parseStatusLines [['M', ' ', ' ', 'b']]).modified ∧
    String.mk (['A', ' ', ' ', 'c'].drop 3) ∈
      (parseStatusLines [['A', ' ', ' ', 'c']]).staged ∧
    ∃ snap, get_status ⟨true, true, true, "M  b.sql", "", false, ""⟩ = .ok snap ∧
      (snap.has_changes = true ↔
        ¬(snap.modified_files = [] ∧ snap.staged_files = [] ∧
          snap.untracked_files = [])) ∧
      ((false : Bool) = false → snap.branch = "unknown") :=
  ⟨C6_status_snapshot.1 _ _ (List.mem_cons_self _ _) rfl,
   C6_status_snapshot.2.1 _ _ (List.mem_cons_self _ _) rfl,
   C6_status_snapshot.2.2.1 _ _ (List.mem_cons_self _ _) rfl,
   C6_status_snapshot.2.2.2.1 ⟨true, true, true, "M  b.sql", "", false, ""⟩ rfl rfl rfl⟩

theorem splitNl_eq_single (cs : List Char) (h : '\n' ∉ cs) : splitNl cs = [cs] := by
  induction cs with
  | nil => rfl
  | cons c rest ih =>
    simp only [List.mem_cons, not_or] at h
    obtain ⟨h1, h2⟩ := h
    simp only [splitNl]
    rw [if_neg (fun hc => h1 hc.symm)]
    rw [ih h2]

/-- C10 counterexample: a repository whose porcelain output is the single
worktree-modified line " M models/a.sql" is reported with a non-empty
modified_files list (holding a mangled path, since run_git_command's strip
removes the line's leading space) and has_changes = true, not with three
empty lists and has_changes = false. -/
theorem C10_space_M_counterexample :
    get_status ⟨true, true, true, " M models/a.sql\n", "", true, "main"⟩ =
      .ok ⟨"main", ["odels/a.sql"], [], [], true⟩ := rfl

/-- C10 (amended): a porcelain line whose two-character code is " M"
contributes to none of the three lists whenever it reaches the parse loop
intact, i.e. for every line except the first line of the output (the
whole-output strip in run_git_command removes a leading space); when the
only change is one worktree modification, its " M" line comes first, loses
its leading space, is miscategorized as modified with the recorded path
missing its first character, and the repository is reported with
has_changes = true rather than false. -/
theorem C10_space_M_amended :
    (∀ ls1 ls2 cs, cs.take 2 = [' ', 'M'] →
      parseStatusLines (ls1 ++ cs :: ls2) = parseStatusLines (ls1 ++ ls2)) ∧
    (∀ name : List Char, '\n' ∉ name → name ≠ [] →
      (∀ c, name.reverse.head? = some c → isPyWS c = false) →
      get_status ⟨true, true, true, String.mk (' ' :: 'M' :: ' ' :: name ++ ['\n']),
          "", true, "main"⟩ =
        .ok ⟨"main", [String.mk (name.drop 1)], [], [], true⟩) := by
  constructor
  · intro ls1 ls2 cs htake
    obtain ⟨t, rfl⟩ : ∃ t, cs = ' ' :: 'M' :: t := by
      cases cs with
      | nil => simp at htake
      | cons a u =>
        cases u with
        | nil => simp at htake
        | cons b v =>
          have h2 : a :: b :: v.take 0 = [' ', 'M'] := htake
          injection h2 with ha h3
          injection h3 with hb h4
          exact ⟨v, by rw [ha, hb]⟩
    induction ls1 with
    | nil =>
      simp only [List.nil_append, parseStatusLines]
      rw [if_neg (by simp)]
      rw [if_neg (show ¬((' ' :: 'M' :: t).take 2 = ['?', '?']) from fun hcon => by
        have h2 : ' ' :: 'M' :: t.take 0 = ['?', '?'] := hcon
        injection h2 with ha hb
        exact absurd ha (by decide))]
      rw [if_neg (show ¬((' ' :: 'M' :: t).head? = some 'M') from fun hcon => by
        injection hcon with ha
        exact absurd ha (by decide))]
      rw [if_neg (show ¬((' ' :: 'M' :: t).head? = some 'A') from fun hcon => by
        injection hcon with ha
        exact absurd ha (by decide))]
    | cons l ls1 ih =>
      simp only [List.cons_append, parseStatusLines, List.append_eq]
      rw [ih]
  · intro name hnl hne hlast
    have hdrop1 : List.dropWhile isPyWS (' ' :: 'M' :: ' ' :: name ++ ['\n']) =
        'M' :: ' ' :: name ++ ['\n'] := rfl
    obtain ⟨c, t, hrev⟩ : ∃ c t, name.reverse = c :: t := by
      cases hnr : name.reverse with
      | nil => exact absurd (List.reverse_eq_nil_iff.mp hnr) hne
      | cons c t => exact ⟨c, t, rfl⟩
    have hc : isPyWS c = false := hlast c (by rw [hrev]; rfl)
    have hrev2 : ('M' :: ' ' :: name ++ ['\n']).reverse = '\n' :: (name.reverse ++ [' ', 'M']) := by
      simp
    have hdrop2 : List.dropWhile isPyWS ('\n' :: (name.reverse ++ [' ', 'M'])) =
        name.reverse ++ [' ', 'M'] := by
      have h0 : List.dropWhile isPyWS ('\n' :: (name.reverse ++ [' ', 'M'])) =
          List.dropWhile isPyWS (name.reverse ++ [' ', 'M']) := rfl
      rw [h0, hrev, List.cons_append,
        List.dropWhile_cons_of_neg (by simp [hc]), ← List.cons_append, ← hrev]
    have hstrip : stripChars (' ' :: 'M' :: ' ' :: name ++ ['\n']) = 'M' :: ' ' :: name := by
      unfold stripChars
      rw [hdrop1, hrev2, hdrop2]
      simp
    have hsplit : splitNl ('M' :: ' ' :: name) = ['M' :: ' ' :: name] := by
      apply splitNl_eq_single
      simp only [List.mem_cons, not_or]
      exact ⟨by decide, by decide, hnl⟩
    have hparse : parseStatusLines ['M' :: ' ' :: name] =
        ⟨[String.mk (name.drop 1)], [], []⟩ := by
      simp only [parseStatusLines]
      rw [if_neg (by simp)]
      rw [if_neg (show ¬(('M' :: ' ' :: name).take 2 = ['?', '?']) from fun hcon => by
        have h2 : 'M' :: ' ' :: name.take 0 = ['?', '?'] := hcon
        injection h2 with ha hb
        exact absurd ha (by decide))]
      rw [if_pos (show ('M' :: ' ' :: name).head? = some 'M' from rfl)]
      rfl
    unfold get_status
    rw [if_neg (by simp), if_neg (by simp), if_neg (by simp)]
    have hdata : (String.mk (' ' :: 'M' :: ' ' :: name ++ ['\n'])).data =
        ' ' :: 'M' :: ' ' :: name ++ ['\n'] := rfl
    rw [hdata, hstrip, hsplit, hparse]
    rfl

/-- C10 amended witness: both conjuncts at concrete inputs. -/
theorem C10_space_M_amended_witness :
    parseStatusLines [['?', '?', ' ', 'n'], [' ', 'M', ' ', 'f'], ['A', ' ', ' ', 'g']] =
      parseStatusLines [['?', '?', ' ', 'n'], ['A', ' ', ' ', 'g']] ∧
    get_status ⟨true, true, true,
        String.mk (' ' :: 'M' :: ' ' :: ['a', '.', 's', 'q', 'l'] ++ ['\n']), "", true, "main"⟩ =
      .ok ⟨"main", [String.mk (['a', '.', 's', 'q', 'l'].drop 1)], [], [], true⟩ :=
  ⟨C10_space_M_amended.1 [['?', '?', ' ', 'n']] [['A', ' ', ' ', 'g']] [' ', 'M', ' ', 'f'] rfl,
   C10_space_M_amended.2 ['a', '.', 's', 'q', 'l'] (by decide) (by decide)
     (fun c hc => by
        have : c = 'l' := by
          have h2 : some 'l' = some c := hc
          injection h2 with h3
          exact h3.symm
        rw [this]; rfl)⟩

/-! ## Transport: run_curl_command and http_get

Embedding of src/utils/common/cli_utils.py lines 104-242.  One curl
invocation's observable outcome (exit status, stdout, whether stdout parses
as JSON, whether stderr contains "Connection refused", stderr text) is an
input, indexed by attempt number.  The while-loop is modelled with fuel
equal to the remaining attempts (attempt < retries iff fuel > 0); the
sleep between attempts happens only when another attempt follows
(attempt + 1 < retries iff the decremented fuel is positive).  Python's
initial last_error = None stringifies to "None". -/

mutual

/-- Python == on parsed JSON values. -/
def jvalEq : JVal → JVal → Bool
  | .null, .null => true
  | .bool a, .bool b => a == b
  | .num a, .num b => a == b
  | .str a, .str b => a == b
  | .arr xs, .arr ys => jvalListEq xs ys
  | .obj xs, .obj ys => jvalKVListEq xs ys
  | _, _ => false

/-- Python == on JSON arrays. -/
def jvalListEq : List JVal → List JVal → Bool
  | [], [] => true
  | x :: xs, y :: ys => jvalEq x y && jvalListEq xs ys
  | _, _ => false

/-- Python == on JSON object entry lists. -/
def jvalKVListEq : List (String × JVal) → List (String × JVal) → Bool
  | [], [] => true
  | (k, v) :: xs, (l, w) :: ys => k == l && jvalEq v w && jvalKVListEq xs ys
  | _, _ => false

end

/-- Python `x in xs` over the terminal-status list. -/
def statusInList (v : JVal) (cs : List JVal) : Bool :=
  cs.any (fun c => jvalEq v c)

/-- poll_response.get("status"), with Python None for a missing key. -/
def currentStatusOf (r : JVal) : JVal :=
  (jget r "status").getD JVal.null

/-- The local default terminal-status set (project_operations.py:160). -/
def defaultCompleteStatuses : List JVal :=
  [.str "completed", .str "failed", .str "error"]

/-- response.get("instructions", {}).get("complete_statuses", default):
the server-supplied list when the initiate-response carries one, the local
default otherwise. -/
def completeStatusesOf (initResp : JVal) : List JVal :=
  match jget initResp "instructions" with
  | some (.obj kvs) =>
    match jget (.obj kvs) "complete_statuses" with
    | some (.arr xs) => xs
    | _ => defaultCompleteStatuses
  | _ => defaultCompleteStatuses

/-- The dict returned when polling times out (project_operations.py:192). -/
def timeoutResponse : JVal :=
  .obj [("status", .str "timeout"),
        ("message", .str "Polling timed out, but the refresh operation may still be in progress")]

/-- What one polling run returns, how many sleeps it took, and whether the
status == "success" print branch was taken. -/
structure PollOut where
  result : JVal
  sleeps : Nat
  successBranch : Bool

/-- The polling loop (project_operations.py:164-192): while the elapsed
time is under 60 seconds, poll; a status in the terminal set returns the
poll response at once (branching on status == "success" for the printed
report); otherwise sleep 2 seconds; on loop exit return the timeout dict. -/
def pollForTask (responses : Nat → JVal) (complete : List JVal) :
    Nat → Nat → Nat → PollOut
  | 0, i, _ => ⟨timeoutResponse, i, false⟩
  | fuel + 1, i, elapsed =>
    if elapsed < 60 then
      let r := responses i
      let cur := currentStatusOf r
      if statusInList cur complete then
        ⟨r, i, jvalEq cur (.str "success")⟩
      else
        pollForTask responses complete fuel (i + 1) (elapsed + 2)
    else ⟨timeoutResponse, i, false⟩

/-- The polling phase of the refresh-sources command. -/
def refreshSourcesPoll (responses : Nat → JVal) (complete : List JVal) : PollOut :=
  pollForTask responses complete 31 0 0

theorem pollForTask_never_terminal (responses : Nat → JVal) (complete : List JVal)
    (h : ∀ i, statusInList (currentStatusOf (responses i)) complete = false) :
    ∀ fuel i elapsed,
      (pollForTask responses complete fuel i elapsed).result = timeoutResponse := by
  intro fuel
  induction fuel with
  | zero => intro i elapsed; rfl
  | succ fuel ih =>
    intro i elapsed
    simp only [pollForTask]
    by_cases he : elapsed < 60
    · rw [if_pos he]
      rw [if_neg (by rw [h i]; exact Bool.false_ne_true)]
      exact ih (i + 1) (elapsed + 2)
    · rw [if_neg he]

theorem pollForTask_stops_at (responses : Nat → JVal) (complete : List JVal) :
    ∀ k i, i + k < 30 →
      (∀ j, j < k → statusInList (currentStatusOf (responses (i + j))) complete = false) →
      statusInList (currentStatusOf (responses (i + k))) complete = true →
      pollForTask responses complete (31 - i) i (2 * i) =
        ⟨responses (i + k), i + k,
          jvalEq (currentStatusOf (responses (i + k))) (.str "success")⟩ := by
  intro k
  induction k with
  | zero =>
    intro i hlt hpre hterm
    simp only [Nat.add_zero] at hterm ⊢
    obtain ⟨m, hm⟩ : ∃ m, 31 - i = m + 1 := ⟨30 - i, by omega⟩
    rw [hm]
    simp only [pollForTask]
    rw [if_pos (show 2 * i < 60 by omega)]
    rw [if_pos hterm]
  | succ k ih =>
    intro i hlt hpre hterm
    obtain ⟨m, hm⟩ : ∃ m, 31 - i = m + 1 := ⟨30 - i, by omega⟩
    rw [hm]
    simp only [pollForTask]
    rw [if_pos (show 2 * i < 60 by omega)]
    rw [if_neg (by
      have h0 := hpre 0 (by omega)
      rw [Nat.add_zero] at h0
      rw [h0]
      exact Bool.false_ne_true)]
    have hm2 : m = 31 - (i + 1) := by omega
    have he2 : 2 * i + 2 = 2 * (i + 1) := by omega
    rw [hm2, he2]
    have hrec := ih (i + 1) (by omega)
      (fun j hj => by
        have h := hpre (j + 1) (by omega)
        rw [show i + (j + 1) = i + 1 + j by omega] at h
        exact h)
      (by
        have h := hterm
        rw [show i + (k + 1) = i + 1 + k by omega] at h
        exact h)
    rw [hrec]
    rw [show i + 1 + k = i + (k + 1) by omega]

/-- C8: polling stops as soon as a polled status lies in the terminal set:
whenever the polls before poll k are non-terminal and poll k (inside the
60-second budget, i.e. k < 30) is terminal, the run returns that poll's
response having slept exactly once after each earlier non-terminal poll and
not after the terminal one, recording whether the status was the
distinguished "success" value; in particular a first poll of
{status: completed} with the default terminal set returns immediately with
zero sleeps; and when no poll ever reaches a terminal status the run
returns the {status: timeout} dict instead of raising. -/
theorem C8_poll_terminal_and_timeout :
    (∀ (responses : Nat → JVal) (complete : List JVal) (k : Nat), k < 30 →
      (∀ j, j < k → statusInList (currentStatusOf (responses j)) complete = false) →
      statusInList (currentStatusOf (responses k)) complete = true →
      refreshSourcesPoll responses complete =
        ⟨responses k, k, jvalEq (currentStatusOf (responses k)) (.str "success")⟩) ∧
    (∀ responses : Nat → JVal,
      jget (responses 0) "status" = some (.str "completed") →
      refreshSourcesPoll responses
          (completeStatusesOf (.obj [("task_id", .str "t1"), ("status", .str "pending")])) =
        ⟨responses 0, 0, false⟩) ∧
    (∀ (responses : Nat → JVal) (complete : List JVal),
      (∀ i, statusInList (currentStatusOf (responses i)) complete = false) →
      (refreshSourcesPoll responses complete).result = timeoutResponse ∧
      jget (refreshSourcesPoll responses complete).result "status" =
        some (.str "timeout")) := by
  have hstops : ∀ (responses : Nat → JVal) (complete : List JVal) (k : Nat), k < 30 →
      (∀ j, j < k → statusInList (currentStatusOf (responses j)) complete = false) →
      statusInList (currentStatusOf (responses k)) complete = true →
      refreshSourcesPoll responses complete =
        ⟨responses k, k, jvalEq (currentStatusOf (responses k)) (.str "success")⟩ := by
    intro responses complete k hk hpre hterm
    have hgen := pollForTask_stops_at responses complete k 0 (by omega)
      (fun j hj => by
        have h := hpre j hj
        rw [show (0 : Nat) + j = j by omega]
        exact h)
      (by
        rw [show (0 : Nat) + k = k by omega]
        exact hterm)
    simp only [Nat.sub_zero, Nat.mul_zero, Nat.zero_add] at hgen
    exact hgen
  refine ⟨hstops, ?_, ?_⟩
  · intro responses hst
    have hcur : currentStatusOf (responses 0) = .str "completed" := by
      unfold currentStatusOf
      rw [hst]
      rfl
    have hin : statusInList (currentStatusOf (responses 0))
        (completeStatusesOf (.obj [("task_id", .str "t1"), ("status", .str "pending")])) = true := by
      rw [hcur]
      rfl
    rw [hstops responses _ 0 (by omega) (fun j hj => absurd hj (by omega)) hin, hcur]
    rfl
  · intro responses complete h
    have hres := pollForTask_never_terminal responses complete h 31 0 0
    exact ⟨hres, by rw [show (refreshSourcesPoll responses complete).result =
      (pollForTask responses complete 31 0 0).result from rfl, hres]; rfl⟩

/-- C8 witness: a run whose terminal "failed" status arrives on the second
poll (one sleep, then immediate return), the "completed" first-poll
scenario with the default terminal set, and a never-terminal run that
times out, all concrete. -/
theorem C8_poll_terminal_and_timeout_witness :
    refreshSourcesPoll
        (fun i => if i = 0 then .obj [("status", .str "running")]
                  else .obj [("status", .str "failed")]) [.str "failed"] =
      ⟨.obj [("status", .str "failed")], 1, false⟩ ∧
    refreshSourcesPoll (fun _ => .obj [("status", .str "completed")])
        (completeStatusesOf (.obj [("task_id", .str "t1"), ("status", .str "pending")])) =
      ⟨.obj [("status", .str "completed")], 0, false⟩ ∧
    (refreshSourcesPoll (fun _ => .obj [("status", .str "running")]) defaultCompleteStatuses).result =
      timeoutResponse ∧
    jget (refreshSourcesPoll (fun _ => .obj [("status", .str "running")])
        defaultCompleteStatuses).result "status" = some (.str "timeout") :=
  ⟨C8_poll_terminal_and_timeout.1
     (fun i => if i = 0 then .obj [("status", .str "running")]
               else .obj [("status", .str "failed")]) [.str "failed"] 1 (by omega)
     (fun j hj => by
        have hj0 : j = 0 := by omega
        subst hj0
        rfl)
     rfl,
   C8_poll_terminal_and_timeout.2.1 (fun _ => .obj [("status", .str "completed")]) rfl,
   (C8_poll_terminal_and_timeout.2.2 (fun _ => .obj [("status", .str "running")])
      defaultCompleteStatuses (fun i => rfl)).1,
   (C8_poll_terminal_and_timeout.2.2 (fun _ => .obj [("status", .str "running")])
      defaultCompleteStatuses (fun i => rfl)).2⟩
